import Mathlib

/-!
Verification of the icon-variant resolution and build-set determination logic of
the Folder11 repository (batch_convert_to_ico_pro.py and batch_convert_to_ico.py).

Python strings are modelled as Lean `String` / `List Char` (ASCII inputs);
machine-level path normalisation (`os.path.normpath(os.path.join(d, n))`) is
modelled as `d ++ "/" ++ n` for separator-free names; exceptions raised by
external collaborators are modelled as `Option`/`Except` values.
-/

/-- Python lexicographic comparison `x <= y` on strings, by code points. -/
def le_chars : List Char → List Char → Bool
  | [], _ => true
  | _ :: _, [] => false
  | a :: as, b :: bs => if a < b then true else if b < a then false else le_chars as bs

/-- Python `a <= b` on `String`. -/
def le_str (a b : String) : Bool := le_chars a.data b.data

/-- The ordering used by Python `sorted` on strings, as a `Prop`-valued relation. -/
def strLe (a b : String) : Prop := le_str a b = true

instance : DecidableRel strLe := fun a b => inferInstanceAs (Decidable (le_str a b = true))

/-- Python `sorted` on a list of strings (lexicographic by code points). -/
def py_sorted (l : List String) : List String := List.insertionSort strLe l

/-- Python `s.endswith(suffix)` on character lists. -/
def ends_with (suffix l : List Char) : Bool := suffix.reverse.isPrefixOf l.reverse

/-- Python `s.lower()` (ASCII). -/
def py_lower (l : List Char) : List Char := l.map Char.toLower

/-- Python `s.isdigit()` (ASCII digits): nonempty and all digits. -/
def py_isdigit (l : List Char) : Bool := !l.isEmpty && l.all Char.isDigit

/-- Python `s.rsplit(sep, 1)`: `none` when `sep` does not occur (result has one
part); otherwise the parts before and after the last occurrence of `sep`. -/
def rsplit1 (sep : Char) (l : List Char) : Option (List Char × List Char) :=
  match l.reverse.span (fun c => !(c == sep)) with
  | (after_rev, rest_rev) =>
    match rest_rev with
    | [] => none
    | _ :: before_rev => some (before_rev.reverse, after_rev.reverse)

/-- Python `s.strip()` (whitespace from both ends). -/
def strip_ws (l : List Char) : List Char :=
  ((l.dropWhile Char.isWhitespace).reverse.dropWhile Char.isWhitespace).reverse

/-- Python `s.strip(c)` for a single character. -/
def strip_char (c : Char) (l : List Char) : List Char :=
  ((l.dropWhile (· == c)).reverse.dropWhile (· == c)).reverse

/-- Python `s.split(sep)[0]`: everything before the first occurrence of `sep`
(the whole string when `sep` does not occur). -/
def split_first (sep : List Char) : List Char → List Char
  | [] => []
  | c :: cs => if sep.isPrefixOf (c :: cs) then [] else c :: split_first sep cs

/-- Python `os.path.basename` (posix): everything after the last slash. -/
def basename (l : List Char) : List Char :=
  (l.reverse.takeWhile (fun c => !(c == '/'))).reverse

/-- Python `needle in hay` substring test. -/
def contains_sub (needle hay : List Char) : Bool :=
  hay.tails.any fun t => needle.isPrefixOf t

/-- Python `', '.join(parts)`-style joining. -/
def py_join (sep : String) : List String → String
  | [] => ""
  | [x] => x
  | x :: xs => x ++ sep ++ py_join sep xs

/-- Shallow model of `os.path.normpath(os.path.join(dir, name))` for
separator-free names. -/
def join_path (dir name : String) : String := dir ++ "/" ++ name

/-- One entry of the mutable `inputs` list built per base icon: the dict
`{'path': ..., 'maximum_size': ...}`. -/
structure Cand where
  path : String
  maximum_size : Nat
deriving DecidableEq

/-- Failure of the per-base-icon resolution block (the spec's
`ResolutionError`): `indexError` models the `sizes[-1]` access on an empty
size tuple, `exhausted` models `inputs.pop(0)` on an exhausted list. -/
inductive ResolutionError
  | indexError
  | exhausted
deriving DecidableEq

namespace ConvertPro

/-- Translation of `ends_with_px` (batch_convert_to_ico_pro.py lines 20-24).
Note the source splits on the character `'#'`, not `'-'`. -/
def ends_with_px (string : List Char) : Bool :=
  if !(ends_with "px".data string) then false
  else
    match rsplit1 '#' string with
    | none => false
    | some parts => py_isdigit (parts.2.take (parts.2.length - 2))

/-- The condition `filename.lower().endswith('.svg')`. -/
def is_svg (filename : String) : Bool := ends_with ".svg".data (py_lower filename.data)

/-- The argument `filename[:-4].lower()` passed to `ends_with_px`. -/
def lowered_stem (filename : String) : List Char :=
  py_lower (filename.data.take (filename.data.length - 4))

/-- Translation of the `base_filenames` comprehension (lines 36-37): svg files
for which no element of `sizes` makes `ends_with_px` true (the comprehension
variable `s` is unused in the source). -/
def base_filenames (listing : List String) (sizes : List Nat) : List String :=
  py_sorted (listing.filter fun filename =>
    is_svg filename && !(sizes.any fun _ => ends_with_px (lowered_stem filename)))

/-- Translation of the `alt_filenames` comprehension (lines 43-44): svg files
for which some element of `sizes[:-1]` makes `ends_with_px` true. -/
def alt_filenames (listing : List String) (sizes : List Nat) : List String :=
  py_sorted (listing.filter fun filename =>
    is_svg filename && (sizes.dropLast.any fun _ => ends_with_px (lowered_stem filename)))

/-- The variant filename `base_filename[:-4] + f'-(size)px.svg'` built at
lines 72 and 93. -/
def assumed_name (base_filename : String) (size : Nat) : String :=
  String.mk (base_filename.data.take (base_filename.data.length - 4))
    ++ "-" ++ toString size ++ "px.svg"

/-- Translation of the change filter loop (lines 63-78): a base file is kept
when its own path is in `changed_paths`, or some size yields a variant name
present in `alts` whose path is in `changed_paths` (the `break` makes the
inner loop an existential). -/
def filter_changed (input_folder : String) (bases alts : List String)
    (sizes : List Nat) (changed_paths : List String) : List String :=
  bases.filter fun base =>
    changed_paths.contains (join_path input_folder base) ||
    (sizes.any fun size =>
      alts.contains (assumed_name base size) &&
      changed_paths.contains (join_path input_folder (assumed_name base size)))

/-- Translation of the `only_changed` block (lines 50-83). `rev_parse` is the
outcome of `git rev-parse --show-toplevel` (`none` models a raised exception),
`git_lines` the combined lines of the three `git` listing commands (`none`
models any of them raising or returning malformed output). Result `none`
models an exception escaping the block: when `rev_parse` fails, the `except`
handler's first statement reads the unbound local `repo_root` and the
resulting `UnboundLocalError` escapes. Result `some (worklist, warned)` is
the worklist the conversion loop proceeds with and whether the warning path
was taken. -/
def incremental_filter (input_folder : String) (bases alts : List String)
    (sizes : List Nat) (rev_parse : Option String)
    (git_lines : Option (List String)) : Option (List String × Bool) :=
  match rev_parse with
  | none => none
  | some repo_root =>
    match git_lines with
    | none => some (bases, true)
    | some ls =>
      let changed_paths := ls.filterMap fun line =>
        if (strip_ws line.data).isEmpty then none
        else some (join_path repo_root (String.mk (strip_ws line.data)))
      some (filter_changed input_folder bases alts sizes changed_paths, false)

/-- Translation of the `inputs` construction (lines 91-102): for each size in
ascending order, the variant file is appended as a candidate when its assumed
name is in `alts`; finally the base file is appended with bound `sizes[-1]`
(passed here as `last_size`). -/
def build_inputs (input_folder base_filename : String) (alts : List String)
    (sizes : List Nat) (last_size : Nat) : List Cand :=
  (sizes.filterMap fun size =>
    if alts.contains (assumed_name base_filename size)
    then some ⟨join_path input_folder (assumed_name base_filename size), size⟩
    else none)
  ++ [⟨join_path input_folder base_filename, last_size⟩]

/-- Translation of the per-size loop (lines 107-118): `cur` is the current
`input`, `rest` the remaining `inputs` list; when the size exceeds the current
bound the next candidate is popped (once - the source uses `if`, not `while`)
and the size is assigned to it. `none` models `pop(0)` raising on an empty
list. -/
def walkAux : Cand → List Cand → List Nat → Option (List (Cand × Nat))
  | _, _, [] => some []
  | cur, rest, s :: ss =>
    if s ≤ cur.maximum_size then
      (walkAux cur rest ss).map (fun l => (cur, s) :: l)
    else
      match rest with
      | [] => none
      | c :: cs => (walkAux c cs ss).map (fun l => (c, s) :: l)

/-- The initial `input = inputs.pop(0)` (line 109) followed by the loop. -/
def runWalk (inputs : List Cand) (sizes : List Nat) : Option (List (Cand × Nat)) :=
  match inputs with
  | [] => none
  | c :: cs => walkAux c cs sizes

/-- The whole per-base-icon resolution block (lines 89-118): builds the
candidate list (failing like `sizes[-1]` when the size tuple is empty) and
runs the single-pass assignment. -/
def resolve (input_folder base_filename : String) (alts : List String)
    (sizes : List Nat) : Except ResolutionError (List (Cand × Nat)) :=
  match sizes.getLast? with
  | none => .error .indexError
  | some last_size =>
    match runWalk (build_inputs input_folder base_filename alts sizes last_size) sizes with
    | none => .error .exhausted
    | some assignment => .ok assignment

/-- Grouping of consecutive sizes assigned to the same candidate into
RenderPlan entries `(source, serviced_sizes)`. -/
def group_runs : List (Cand × Nat) → List (Cand × List Nat)
  | [] => []
  | (c, s) :: rest =>
    match group_runs rest with
    | [] => [(c, [s])]
    | (c2, ss) :: gs =>
      if c = c2 then (c2, s :: ss) :: gs else (c, [s]) :: (c2, ss) :: gs

/-- Python `f.endswith(('.svg', '.ico'))` (lines 196-198). -/
def is_icon (f : String) : Bool :=
  ends_with ".svg".data f.data || ends_with ".ico".data f.data

/-- Translation of the per-line parsing in `git_commit_and_push`
(lines 176-183): status code `line[0]`, path `line[3:].strip().strip('"')`,
and for renames the part before `' -> '`. -/
def process_line (line : String) : Char × String :=
  let staged_status := line.data.headD ' '
  let path_info := String.mk (strip_char '"' (strip_ws (line.data.drop 3)))
  let path := if staged_status == 'R'
    then String.mk (split_first " -> ".data path_info.data)
    else path_info
  (staged_status, path)

/-- Translation of the status-collection loop (lines 173-193), producing
`(added_files, modified_files, deleted_files, all_changed_paths)`. -/
def parse_status (lines : List String) :
    List String × List String × List String × List String :=
  lines.foldl
    (fun acc line =>
      let staged_status := (process_line line).1
      let path := (process_line line).2
      let filename := String.mk (basename path.data)
      let all := acc.2.2.2 ++ [path]
      if staged_status == 'A' then (acc.1 ++ [filename], acc.2.1, acc.2.2.1, all)
      else if staged_status == 'M' || staged_status == 'R' then
        (acc.1, acc.2.1 ++ [filename], acc.2.2.1, all)
      else if staged_status == 'D' then (acc.1, acc.2.1, acc.2.2.1 ++ [filename], all)
      else (acc.1, acc.2.1, acc.2.2.1, all))
    ([], [], [], [])

/-- The `added_icons` list (line 196). -/
def added_icons (lines : List String) : List String := (parse_status lines).1.filter is_icon

/-- The `modified_icons` list (line 197). -/
def modified_icons (lines : List String) : List String :=
  (parse_status lines).2.1.filter is_icon

/-- The `deleted_icons` list (line 198). -/
def deleted_icons (lines : List String) : List String :=
  (parse_status lines).2.2.1.filter is_icon

/-- The `all_changed_paths` list (line 174). -/
def all_changed_paths (lines : List String) : List String := (parse_status lines).2.2.2

/-- Translation of the commit-message synthesis (lines 200-218); `today` is
the value of `time.strftime('%Y-%m-%d')`. -/
def commit_message (status_lines : List String) (today : String) : String :=
  let ai := added_icons status_lines
  let mi := modified_icons status_lines
  let di := deleted_icons status_lines
  let all_paths := all_changed_paths status_lines
  if !ai.isEmpty || !mi.isEmpty || !di.isEmpty then
    if ai.length == 1 && mi.isEmpty && di.isEmpty then
      "feat: add " ++ ai.headD ""
    else if mi.length == 1 && ai.isEmpty && di.isEmpty then
      "feat: update " ++ mi.headD ""
    else
      let counts :=
        (if !ai.isEmpty then ["add " ++ toString ai.length] else []) ++
        (if !mi.isEmpty then ["update " ++ toString mi.length] else []) ++
        (if !di.isEmpty then ["remove " ++ toString di.length] else [])
      "feat: " ++ py_join ", " counts ++ " icons"
  else if all_paths.any (fun p => ends_with ".md".data p.data) then
    "docs: update documentation"
  else if all_paths.any (fun p => contains_sub ".github".data p.data) then
    "ci: update workflow"
  else
    "chore: update files " ++ today

end ConvertPro

namespace ConvertIco

/-- Translation of `ends_with_px` (batch_convert_to_ico.py lines 24-28).
Note the source splits on the character `'#'`, not `'-'`. -/
def ends_with_px (string : List Char) : Bool :=
  if !(ends_with "px".data string) then false
  else
    match rsplit1 '#' string with
    | none => false
    | some parts => py_isdigit (parts.2.take (parts.2.length - 2))

/-- The condition `filename.lower().endswith('.svg')`. -/
def is_svg (filename : String) : Bool := ends_with ".svg".data (py_lower filename.data)

/-- The argument `filename[:-4].lower()` passed to `ends_with_px`. -/
def lowered_stem (filename : String) : List Char :=
  py_lower (filename.data.take (filename.data.length - 4))

/-- Translation of the `base_filenames` comprehension (lines 40-41): svg files
for which no element of `sizes` makes `ends_with_px` true (the comprehension
variable `s` is unused in the source). -/
def base_filenames (listing : List String) (sizes : List Nat) : List String :=
  py_sorted (listing.filter fun filename =>
    is_svg filename && !(sizes.any fun _ => ends_with_px (lowered_stem filename)))

/-- Translation of the `alt_filenames` comprehension (lines 47-48): svg files
for which some element of `sizes[:-1]` makes `ends_with_px` true. -/
def alt_filenames (listing : List String) (sizes : List Nat) : List String :=
  py_sorted (listing.filter fun filename =>
    is_svg filename && (sizes.dropLast.any fun _ => ends_with_px (lowered_stem filename)))

/-- The variant filename `base_filename[:-4] + f'-(size)px.svg'` built at
lines 72 and 93. -/
def assumed_name (base_filename : String) (size : Nat) : String :=
  String.mk (base_filename.data.take (base_filename.data.length - 4))
    ++ "-" ++ toString size ++ "px.svg"

/-- Translation of the change filter loop (lines 67-82): a base file is kept
when its own path is in `changed_paths`, or some size yields a variant name
present in `alts` whose path is in `changed_paths` (the `break` makes the
inner loop an existential). -/
def filter_changed (input_folder : String) (bases alts : List String)
    (sizes : List Nat) (changed_paths : List String) : List String :=
  bases.filter fun base =>
    changed_paths.contains (join_path input_folder base) ||
    (sizes.any fun size =>
      alts.contains (assumed_name base size) &&
      changed_paths.contains (join_path input_folder (assumed_name base size)))

/-- Translation of the `only_changed` block (lines 54-87). `rev_parse` is the
outcome of `git rev-parse --show-toplevel` (`none` models a raised exception),
`git_lines` the combined lines of the three `git` listing commands (`none`
models any of them raising or returning malformed output). Result `none`
models an exception escaping the block: when `rev_parse` fails, the `except`
handler's first statement reads the unbound local `repo_root` and the
resulting `UnboundLocalError` escapes. Result `some (worklist, warned)` is
the worklist the conversion loop proceeds with and whether the warning path
was taken. -/
def incremental_filter (input_folder : String) (bases alts : List String)
    (sizes : List Nat) (rev_parse : Option String)
    (git_lines : Option (List String)) : Option (List String × Bool) :=
  match rev_parse with
  | none => none
  | some repo_root =>
    match git_lines with
    | none => some (bases, true)
    | some ls =>
      let changed_paths := ls.filterMap fun line =>
        if (strip_ws line.data).isEmpty then none
        else some (join_path repo_root (String.mk (strip_ws line.data)))
      some (filter_changed input_folder bases alts sizes changed_paths, false)

/-- Translation of the `inputs` construction (lines 95-106): for each size in
ascending order, the variant file is appended as a candidate when its assumed
name is in `alts`; finally the base file is appended with bound `sizes[-1]`
(passed here as `last_size`). -/
def build_inputs (input_folder base_filename : String) (alts : List String)
    (sizes : List Nat) (last_size : Nat) : List Cand :=
  (sizes.filterMap fun size =>
    if alts.contains (assumed_name base_filename size)
    then some ⟨join_path input_folder (assumed_name base_filename size), size⟩
    else none)
  ++ [⟨join_path input_folder base_filename, last_size⟩]

/-- Translation of the per-size loop (lines 111-122): `cur` is the current
`input`, `rest` the remaining `inputs` list; when the size exceeds the current
bound the next candidate is popped (once - the source uses `if`, not `while`)
and the size is assigned to it. `none` models `pop(0)` raising on an empty
list. -/
def walkAux : Cand → List Cand → List Nat → Option (List (Cand × Nat))
  | _, _, [] => some []
  | cur, rest, s :: ss =>
    if s ≤ cur.maximum_size then
      (walkAux cur rest ss).map (fun l => (cur, s) :: l)
    else
      match rest with
      | [] => none
      | c :: cs => (walkAux c cs ss).map (fun l => (c, s) :: l)

/-- The initial `input = inputs.pop(0)` (line 113) followed by the loop. -/
def runWalk (inputs : List Cand) (sizes : List Nat) : Option (List (Cand × Nat)) :=
  match inputs with
  | [] => none
  | c :: cs => walkAux c cs sizes

/-- The whole per-base-icon resolution block (lines 93-122): builds the
candidate list (failing like `sizes[-1]` when the size tuple is empty) and
runs the single-pass assignment. -/
def resolve (input_folder base_filename : String) (alts : List String)
    (sizes : List Nat) : Except ResolutionError (List (Cand × Nat)) :=
  match sizes.getLast? with
  | none => .error .indexError
  | some last_size =>
    match runWalk (build_inputs input_folder base_filename alts sizes last_size) sizes with
    | none => .error .exhausted
    | some assignment => .ok assignment

/-- Grouping of consecutive sizes assigned to the same candidate into
RenderPlan entries `(source, serviced_sizes)`. -/
def group_runs : List (Cand × Nat) → List (Cand × List Nat)
  | [] => []
  | (c, s) :: rest =>
    match group_runs rest with
    | [] => [(c, [s])]
    | (c2, ss) :: gs =>
      if c = c2 then (c2, s :: ss) :: gs else (c, [s]) :: (c2, ss) :: gs

/-- Python `f.endswith(('.svg', '.ico'))` (lines 200-202). -/
def is_icon (f : String) : Bool :=
  ends_with ".svg".data f.data || ends_with ".ico".data f.data

/-- Translation of the per-line parsing in `git_commit_and_push`
(lines 180-187): status code `line[0]`, path `line[3:].strip().strip('"')`,
and for renames the part before `' -> '`. -/
def process_line (line : String) : Char × String :=
  let staged_status := line.data.headD ' '
  let path_info := String.mk (strip_char '"' (strip_ws (line.data.drop 3)))
  let path := if staged_status == 'R'
    then String.mk (split_first " -> ".data path_info.data)
    else path_info
  (staged_status, path)

/-- Translation of the status-collection loop (lines 177-197), producing
`(added_files, modified_files, deleted_files, all_changed_paths)`. -/
def parse_status (lines : List String) :
    List String × List String × List String × List String :=
  lines.foldl
    (fun acc line =>
      let staged_status := (process_line line).1
      let path := (process_line line).2
      let filename := String.mk (basename path.data)
      let all := acc.2.2.2 ++ [path]
      if staged_status == 'A' then (acc.1 ++ [filename], acc.2.1, acc.2.2.1, all)
      else if staged_status == 'M' || staged_status == 'R' then
        (acc.1, acc.2.1 ++ [filename], acc.2.2.1, all)
      else if staged_status == 'D' then (acc.1, acc.2.1, acc.2.2.1 ++ [filename], all)
      else (acc.1, acc.2.1, acc.2.2.1, all))
    ([], [], [], [])

/-- The `added_icons` list (line 200). -/
def added_icons (lines : List String) : List String := (parse_status lines).1.filter is_icon

/-- The `modified_icons` list (line 201). -/
def modified_icons (lines : List String) : List String :=
  (parse_status lines).2.1.filter is_icon

/-- The `deleted_icons` list (line 202). -/
def deleted_icons (lines : List String) : List String :=
  (parse_status lines).2.2.1.filter is_icon

/-- The `all_changed_paths` list (line 178). -/
def all_changed_paths (lines : List String) : List String := (parse_status lines).2.2.2

/-- Translation of the commit-message synthesis (lines 204-222); `today` is
the value of `time.strftime('%Y-%m-%d')`. -/
def commit_message (status_lines : List String) (today : String) : String :=
  let ai := added_icons status_lines
  let mi := modified_icons status_lines
  let di := deleted_icons status_lines
  let all_paths := all_changed_paths status_lines
  if !ai.isEmpty || !mi.isEmpty || !di.isEmpty then
    if ai.length == 1 && mi.isEmpty && di.isEmpty then
      "feat: add " ++ ai.headD ""
    else if mi.length == 1 && ai.isEmpty && di.isEmpty then
      "feat: update " ++ mi.headD ""
    else
      let counts :=
        (if !ai.isEmpty then ["add " ++ toString ai.length] else []) ++
        (if !mi.isEmpty then ["update " ++ toString mi.length] else []) ++
        (if !di.isEmpty then ["remove " ++ toString di.length] else [])
      "feat: " ++ py_join ", " counts ++ " icons"
  else if all_paths.any (fun p => ends_with ".md".data p.data) then
    "docs: update documentation"
  else if all_paths.any (fun p => contains_sub ".github".data p.data) then
    "ci: update workflow"
  else
    "chore: update files " ++ today

end ConvertIco

/- =====================  Helper lemmas  ===================== -/

theorem list_any_const_false {α : Type} : ∀ l : List α, (l.any fun _ => false) = false := by
  intro l
  induction l with
  | nil => rfl
  | cons a t ih => simpa [List.any_cons] using ih

theorem list_any_const {α : Type} (l : List α) (b : Bool) (h : l ≠ []) :
    (l.any fun _ => b) = b := by
  cases l with
  | nil => exact absurd rfl h
  | cons a t =>
    cases b with
    | false => exact list_any_const_false (a :: t)
    | true => simp [List.any_cons]

theorem le_chars_total : ∀ x y : List Char, le_chars x y = true ∨ le_chars y x = true := by
  intro x
  induction x with
  | nil => intro y; left; rfl
  | cons a as ih =>
    intro y
    cases y with
    | nil => right; rfl
    | cons b bs =>
      rcases lt_trichotomy a b with h | h | h
      · left; simp [le_chars, h]
      · subst h
        rcases ih bs with h2 | h2
        · left; simp [le_chars, lt_irrefl, h2]
        · right; simp [le_chars, lt_irrefl, h2]
      · right; simp [le_chars, h]

theorem le_chars_trans :
    ∀ x y z : List Char, le_chars x y = true → le_chars y z = true → le_chars x z = true := by
  intro x
  induction x with
  | nil => intro y z _ _; rfl
  | cons a as ih =>
    intro y z hxy hyz
    cases y with
    | nil => simp [le_chars] at hxy
    | cons b bs =>
      cases z with
      | nil => simp [le_chars] at hyz
      | cons c cs =>
        have hba : ¬ b < a := by
          intro h
          simp [le_chars, h, asymm h] at hxy
        have hcb : ¬ c < b := by
          intro h
          simp [le_chars, h, asymm h] at hyz
        by_cases hab : a < b
        · have hac : a < c := lt_of_lt_of_le hab (not_lt.mp hcb)
          simp [le_chars, hac]
        · have hab' : a = b := le_antisymm (not_lt.mp hba) (not_lt.mp hab)
          subst hab'
          by_cases hac : a < c
          · simp [le_chars, hac]
          · have hac' : a = c := le_antisymm (not_lt.mp hcb) (not_lt.mp hac)
            subst hac'
            simp [le_chars, lt_irrefl] at hxy hyz ⊢
            exact ih bs cs hxy hyz

instance : IsTotal String strLe := ⟨fun a b => le_chars_total a.data b.data⟩

instance : IsTrans String strLe :=
  ⟨fun a b c hab hbc => le_chars_trans a.data b.data c.data hab hbc⟩

theorem sorted_py_sorted (l : List String) : List.Sorted strLe (py_sorted l) :=
  List.sorted_insertionSort strLe l

theorem mem_py_sorted {a : String} {l : List String} : a ∈ py_sorted l ↔ a ∈ l :=
  (List.perm_insertionSort strLe l).mem_iff

theorem str_contains_iff {l : List String} {x : String} : l.contains x = true ↔ x ∈ l :=
  List.elem_iff

namespace ConvertPro

theorem mem_base_filenames {f : String} {listing : List String} {sizes : List Nat}
    (hne : sizes ≠ []) :
    f ∈ base_filenames listing sizes ↔
      f ∈ listing ∧ is_svg f = true ∧ ends_with_px (lowered_stem f) = false := by
  unfold base_filenames
  rw [mem_py_sorted, List.mem_filter,
    list_any_const sizes (ends_with_px (lowered_stem f)) hne]
  cases hpx : ends_with_px (lowered_stem f) <;> simp [hpx]

theorem mem_alt_filenames {f : String} {listing : List String} {sizes : List Nat}
    (hdl : sizes.dropLast ≠ []) :
    f ∈ alt_filenames listing sizes ↔
      f ∈ listing ∧ is_svg f = true ∧ ends_with_px (lowered_stem f) = true := by
  unfold alt_filenames
  rw [mem_py_sorted, List.mem_filter,
    list_any_const sizes.dropLast (ends_with_px (lowered_stem f)) hdl]
  cases hpx : ends_with_px (lowered_stem f) <;> simp [hpx]

end ConvertPro

theorem pairwise_le_getLast {L : Nat} :
    ∀ {sizes : List Nat}, sizes.Pairwise (· < ·) → sizes.getLast? = some L →
      ∀ s ∈ sizes, s ≤ L := by
  intro sizes
  induction sizes with
  | nil => intro _ h; cases h
  | cons a t ih =>
    intro hp hL s hs
    cases t with
    | nil =>
      simp at hL hs
      omega
    | cons b t2 =>
      rw [List.getLast?_cons_cons] at hL
      rcases List.mem_cons.mp hs with rfl | hs2
      · have hLmem : L ∈ b :: t2 := List.mem_of_mem_getLast? hL
        have : s < L := (List.pairwise_cons.mp hp).1 L hLmem
        omega
      · exact ih (List.pairwise_cons.mp hp).2 hL s hs2

namespace ConvertPro

theorem walkAux_isSome :
    ∀ (ss : List Nat) (cur : Cand) (rest : List Cand),
      (∀ s ∈ ss, s ≤ (rest.getLastD cur).maximum_size) →
      (walkAux cur rest ss).isSome = true := by
  intro ss
  induction ss with
  | nil => intro cur rest _; rfl
  | cons s ss ih =>
    intro cur rest h
    by_cases hs : s ≤ cur.maximum_size
    · have heq : walkAux cur rest (s :: ss) =
          (walkAux cur rest ss).map (fun l => (cur, s) :: l) := by
        simp [walkAux, hs]
      have h2 := ih cur rest (fun t ht => h t (List.mem_cons_of_mem s ht))
      rw [heq]
      simpa using h2
    · cases rest with
      | nil => exact absurd (h s (List.mem_cons_self s ss)) (by simpa using hs)
      | cons c cs =>
        have heq : walkAux cur (c :: cs) (s :: ss) =
            (walkAux c cs ss).map (fun l => (c, s) :: l) := by
          simp [walkAux, hs]
        have h2 : (walkAux c cs ss).isSome = true := by
          apply ih c cs
          intro t ht
          have := h t (List.mem_cons_of_mem s ht)
          rwa [List.getLastD_cons] at this
        rw [heq]
        simpa using h2

theorem runWalk_isSome (pre : List Cand) (b : Cand) (sizes : List Nat)
    (h : ∀ s ∈ sizes, s ≤ b.maximum_size) :
    (runWalk (pre ++ [b]) sizes).isSome = true := by
  cases pre with
  | nil =>
    simp only [List.nil_append, runWalk]
    exact walkAux_isSome sizes b [] (by simpa using h)
  | cons p ps =>
    simp only [List.cons_append, runWalk]
    apply walkAux_isSome
    intro s hs
    rw [List.getLastD_concat]
    exact h s hs

end ConvertPro

/-- C9: under the caller invariants that the base file is appended as the final
candidate and its maximum-size bound equals the largest requested size, the
exhausted-candidates failure (popping from an empty candidate list while sizes
remain) is unreachable for every non-empty strictly ascending size set: the
single-pass walk always returns a result. -/
theorem claim_C9_exhaustion_unreachable (pre : List Cand) (b : Cand) (sizes : List Nat)
    (hasc : sizes.Pairwise (· < ·)) (hb : sizes.getLast? = some b.maximum_size) :
    (ConvertPro.runWalk (pre ++ [b]) sizes).isSome = true :=
  ConvertPro.runWalk_isSome pre b sizes (pairwise_le_getLast hasc hb)

/-- Witness for C9 at a concrete input: one 16px override candidate followed by
the base candidate with bound 32, sizes (16, 32). -/
theorem claim_C9_witness :
    (ConvertPro.runWalk ([⟨"d/logo-16px.svg", 16⟩] ++ [⟨"d/logo.svg", 32⟩]) [16, 32]).isSome
      = true :=
  claim_C9_exhaustion_unreachable [⟨"d/logo-16px.svg", 16⟩] ⟨"d/logo.svg", 32⟩ [16, 32]
    (by decide) (by decide)

theorem filterMap_if_max_sublist (p : Nat → Bool) (f : Nat → Cand)
    (hf : ∀ s, (f s).maximum_size = s) :
    ∀ sizes : List Nat,
      ((sizes.filterMap fun s => if p s then some (f s) else none).map
        Cand.maximum_size).Sublist sizes := by
  intro sizes
  induction sizes with
  | nil => simp
  | cons a t ih =>
    by_cases h : p a = true
    · simp only [List.filterMap_cons, h, if_pos, List.map_cons, hf]
      exact List.Sublist.cons₂ a ih
    · simp only [List.filterMap_cons, h]
      exact ih.cons a

namespace ConvertPro

theorem flatten_group_runs :
    ∀ l : List (Cand × Nat), ((group_runs l).map Prod.snd).flatten = l.map Prod.snd := by
  intro l
  induction l with
  | nil => rfl
  | cons p rest ih =>
    obtain ⟨c, s⟩ := p
    cases hg : group_runs rest with
    | nil =>
      have hrest : rest.map Prod.snd = [] := by
        rw [← ih, hg]
        rfl
      simp [group_runs, hg, hrest]
    | cons g gs =>
      obtain ⟨c2, ss⟩ := g
      have ih2 : ss ++ (List.map Prod.snd gs).flatten = rest.map Prod.snd := by
        simpa [hg] using ih
      by_cases hc : c = c2
      · simp [group_runs, hg, hc, ← ih2]
      · simp [group_runs, hg, hc, ← ih2]

theorem build_inputs_split (dir base : String) (alts : List String) (sizes : List Nat)
    (L : Nat) :
    ∃ ovs, build_inputs dir base alts sizes L = ovs ++ [⟨join_path dir base, L⟩] ∧
      (ovs.map Cand.maximum_size).Sublist sizes :=
  ⟨_, rfl,
    filterMap_if_max_sublist (fun size => alts.contains (assumed_name base size))
      (fun size => ⟨join_path dir (assumed_name base size), size⟩) (fun _ => rfl) sizes⟩


theorem walkAux_spec (sizes0 : List Nat) (hasc : sizes0.Pairwise (· < ·))
    (baseC : Cand) (hbase : ∀ s ∈ sizes0, s ≤ baseC.maximum_size) :
    ∀ (ss done : List Nat) (ovs : List Cand) (cur : Cand) (rest : List Cand),
      sizes0 = done ++ ss →
      cur :: rest = ovs ++ [baseC] →
      (ovs.map Cand.maximum_size).Sublist sizes0 →
      (∀ d ∈ done, d ≤ cur.maximum_size) →
      ∃ l, walkAux cur rest ss = some l ∧ l.map Prod.snd = ss ∧
        ∀ p ∈ l, (cur :: rest).find? (fun c => decide (p.2 ≤ c.maximum_size)) = some p.1 := by
  intro ss
  induction ss with
  | nil =>
    intro done ovs cur rest _ _ _ _
    exact ⟨[], rfl, rfl, fun p hp => absurd hp (List.not_mem_nil p)⟩
  | cons s ss ih =>
    intro done ovs cur rest hsplit hstruct hovs hdone
    have hsmem : s ∈ sizes0 := by
      rw [hsplit]
      exact List.mem_append_right done (List.mem_cons_self s ss)
    have hasc2 : (done ++ s :: ss).Pairwise (· < ·) := hsplit ▸ hasc
    obtain ⟨hdonePW, hssPW, hcross⟩ := List.pairwise_append.mp hasc2
    have hslt : ∀ x ∈ ss, s < x := (List.pairwise_cons.mp hssPW).1
    by_cases hs : s ≤ cur.maximum_size
    · obtain ⟨l, hw, hmap, hfind⟩ := ih (done ++ [s]) ovs cur rest
        (by rw [hsplit, List.append_assoc]; rfl)
        hstruct hovs
        (by intro d hd
            rcases List.mem_append.mp hd with hd | hd
            · exact hdone d hd
            · simp at hd
              omega)
      refine ⟨(cur, s) :: l, ?_, ?_, ?_⟩
      · simp [walkAux, hs, hw]
      · simp [hmap]
      · intro p hp
        rcases List.mem_cons.mp hp with rfl | hp2
        · exact List.find?_cons_of_pos rest (by simpa using hs)
        · exact hfind p hp2
    · cases ovs with
      | nil =>
        obtain ⟨hcur, -⟩ : cur = baseC ∧ rest = [] := by simpa using hstruct
        exact absurd (hcur ▸ hbase s hsmem) hs
      | cons o ovs2 =>
        obtain ⟨rfl, hrest⟩ : cur = o ∧ rest = ovs2 ++ [baseC] := by simpa using hstruct
        cases ovs2 with
        | nil =>
          have hrest2 : rest = [baseC] := by simpa using hrest
          subst hrest2
          have hc : s ≤ baseC.maximum_size := hbase s hsmem
          obtain ⟨l, hw, hmap, hfind⟩ := ih (done ++ [s]) [] baseC []
            (by rw [hsplit, List.append_assoc]; rfl)
            rfl (by simp)
            (by intro d hd
                rcases List.mem_append.mp hd with hd | hd
                · exact hbase d (hsplit ▸ List.mem_append_left _ hd)
                · simp at hd
                  omega)
          refine ⟨(baseC, s) :: l, ?_, ?_, ?_⟩
          · simp [walkAux, hs, hw]
          · simp [hmap]
          · intro p hp
            rcases List.mem_cons.mp hp with rfl | hp2
            · rw [List.find?_cons_of_neg [baseC] (by simpa using hs)]
              exact List.find?_cons_of_pos [] (by simpa using hc)
            · have hp2mem : p.2 ∈ ss := by
                rw [← hmap]
                exact List.mem_map_of_mem Prod.snd hp2
              have hnp : ¬ p.2 ≤ cur.maximum_size := by
                have := hslt p.2 hp2mem
                omega
              rw [List.find?_cons_of_neg [baseC] (by simpa using hnp)]
              exact hfind p hp2
        | cons o2 ovs3 =>
          have hrest2 : rest = o2 :: (ovs3 ++ [baseC]) := by simpa using hrest
          subst hrest2
          have ho2mem : o2.maximum_size ∈ sizes0 := hovs.subset (by simp)
          have hpm : ((cur :: o2 :: ovs3).map Cand.maximum_size).Pairwise (· < ·) :=
            hasc.sublist hovs
          rw [List.map_cons, List.map_cons] at hpm
          have ho1o2 : cur.maximum_size < o2.maximum_size :=
            (List.pairwise_cons.mp hpm).1 o2.maximum_size (by simp)
          have hc : s ≤ o2.maximum_size := by
            rw [hsplit] at ho2mem
            rcases List.mem_append.mp ho2mem with hid | hid
            · have := hdone _ hid
              omega
            · rcases List.mem_cons.mp hid with heq | hid2
              · omega
              · have := hslt _ hid2
                omega
          obtain ⟨l, hw, hmap, hfind⟩ := ih (done ++ [s]) (o2 :: ovs3) o2 (ovs3 ++ [baseC])
            (by rw [hsplit, List.append_assoc]; rfl)
            rfl
            (by
              have h1 : (o2 :: ovs3).Sublist (cur :: o2 :: ovs3) :=
                List.sublist_cons_self cur (o2 :: ovs3)
              exact (h1.map Cand.maximum_size).trans hovs)
            (by intro d hd
                rcases List.mem_append.mp hd with hd | hd
                · have := hdone d hd
                  omega
                · simp at hd
                  omega)
          refine ⟨(o2, s) :: l, ?_, ?_, ?_⟩
          · simp [walkAux, hs, hw]
          · simp [hmap]
          · intro p hp
            rcases List.mem_cons.mp hp with rfl | hp2
            · rw [List.find?_cons_of_neg _ (by simpa using hs)]
              exact List.find?_cons_of_pos _ (by simpa using hc)
            · have hp2mem : p.2 ∈ ss := by
                rw [← hmap]
                exact List.mem_map_of_mem Prod.snd hp2
              have hnp : ¬ p.2 ≤ cur.maximum_size := by
                have := hslt p.2 hp2mem
                omega
              rw [List.find?_cons_of_neg _ (by simpa using hnp)]
              exact hfind p hp2

end ConvertPro

/-- C1: for every non-empty strictly increasing size sequence and every base
icon with its ordered override candidates, the single-pass assignment produced
by the resolution block succeeds, services each requested size with the first
(smallest-bound) candidate whose declared maximum-size bound is at least that
size, and the per-size assignment - hence also the concatenation of the
serviced_sizes across the grouped RenderPlan entries - equals the size
sequence exactly, in ascending order, with no gaps or repeats. -/
theorem claim_C1_resolver_first_fit (input_folder base_filename : String)
    (alts : List String) (sizes : List Nat) (last_size : Nat)
    (hL : sizes.getLast? = some last_size) (hasc : sizes.Pairwise (· < ·)) :
    ∃ l, ConvertPro.resolve input_folder base_filename alts sizes = .ok l ∧
      l.map Prod.snd = sizes ∧
      ((ConvertPro.group_runs l).map Prod.snd).flatten = sizes ∧
      ∀ p ∈ l,
        (ConvertPro.build_inputs input_folder base_filename alts sizes last_size).find?
          (fun c => decide (p.2 ≤ c.maximum_size)) = some p.1 := by
  have hbase : ∀ s ∈ sizes, s ≤ last_size := pairwise_le_getLast hasc hL
  obtain ⟨ovs, hb, hovs⟩ :=
    ConvertPro.build_inputs_split input_folder base_filename alts sizes last_size
  cases ovs with
  | nil =>
    obtain ⟨l, hw, hmap, hfind⟩ :=
      ConvertPro.walkAux_spec sizes hasc ⟨join_path input_folder base_filename, last_size⟩
        hbase sizes [] [] ⟨join_path input_folder base_filename, last_size⟩ []
        rfl rfl (by simp) (by simp)
    have hrw : ConvertPro.runWalk
        (ConvertPro.build_inputs input_folder base_filename alts sizes last_size) sizes
        = some l := by
      rw [hb]
      simpa [ConvertPro.runWalk] using hw
    refine ⟨l, ?_, hmap, ?_, ?_⟩
    · simp only [ConvertPro.resolve, hL, hrw]
    · rw [ConvertPro.flatten_group_runs, hmap]
    · intro p hp
      rw [hb]
      simpa using hfind p hp
  | cons o os =>
    obtain ⟨l, hw, hmap, hfind⟩ :=
      ConvertPro.walkAux_spec sizes hasc ⟨join_path input_folder base_filename, last_size⟩
        hbase sizes [] (o :: os) o
        (os ++ [⟨join_path input_folder base_filename, last_size⟩])
        rfl (by rw [List.cons_append]) hovs (by simp)
    have hrw : ConvertPro.runWalk
        (ConvertPro.build_inputs input_folder base_filename alts sizes last_size) sizes
        = some l := by
      rw [hb]
      simpa [ConvertPro.runWalk] using hw
    refine ⟨l, ?_, hmap, ?_, ?_⟩
    · simp only [ConvertPro.resolve, hL, hrw]
    · rw [ConvertPro.flatten_group_runs, hmap]
    · intro p hp
      rw [hb]
      simpa using hfind p hp

/-- Witness for C1: base logo.svg with a 32px override and sizes (16, 32). -/
theorem claim_C1_witness :
    ∃ l, ConvertPro.resolve "d" "logo.svg" ["logo-32px.svg"] [16, 32] = .ok l ∧
      l.map Prod.snd = [16, 32] ∧
      ((ConvertPro.group_runs l).map Prod.snd).flatten = [16, 32] ∧
      ∀ p ∈ l,
        (ConvertPro.build_inputs "d" "logo.svg" ["logo-32px.svg"] [16, 32] 32).find?
          (fun c => decide (p.2 ≤ c.maximum_size)) = some p.1 :=
  claim_C1_resolver_first_fit "d" "logo.svg" ["logo-32px.svg"] [16, 32] 32
    (by decide) (by decide)

/-- C7: invoking the per-base-icon resolution block with an empty size set
fails with a ResolutionError (the `sizes[-1]` index access raises). -/
theorem claim_C7_empty_sizes (input_folder base_filename : String) (alts : List String) :
    ConvertPro.resolve input_folder base_filename alts [] =
      .error ResolutionError.indexError := rfl

/-- C6: evidence of the behaviour of the incremental-filter block when the
version-control collaborator fails. When `git rev-parse` itself raises, the
run is aborted (the warning path reads an unbound local and re-raises),
contrary to the claim; when a later git query raises, filtering degrades to
the full worklist with a warning as the claim states. -/
theorem claim_C6_revparse_abort :
    ConvertPro.incremental_filter "d" ["a.svg"] [] [16] none (some []) = none ∧
    ConvertPro.incremental_filter "d" ["a.svg"] [] [16] (some "r") none =
      some (["a.svg"], true) := ⟨rfl, rfl⟩

/-- C4: in incremental mode a base file is kept iff its own path is in the
change set, or the path of an override file (present in the override list)
whose name is the base stem + '-' + size + 'px' + extension for some size in
the size set is in the change set; and the output is a sublist of the input
base list, so the input order is preserved. -/
theorem claim_C4_change_filter (input_folder : String) (bases alts : List String)
    (sizes : List Nat) (changed_paths : List String) :
    (∀ f, f ∈ ConvertPro.filter_changed input_folder bases alts sizes changed_paths ↔
      f ∈ bases ∧ (join_path input_folder f ∈ changed_paths ∨
        ∃ size ∈ sizes, ConvertPro.assumed_name f size ∈ alts ∧
          join_path input_folder (ConvertPro.assumed_name f size) ∈ changed_paths)) ∧
    (ConvertPro.filter_changed input_folder bases alts sizes changed_paths).Sublist bases := by
  constructor
  · intro f
    simp only [ConvertPro.filter_changed, List.mem_filter, Bool.or_eq_true,
      List.any_eq_true, Bool.and_eq_true, str_contains_iff]
  · exact List.filter_sublist bases

/-- C2: evidence of the separator bug in `ends_with_px`. The claim (and the
source docstring) say a dash-separated name like `logo-16px` is an Override,
but the code splits on `'#'`, so dash names are classified Base and only
hash-separated names like `logo#16px` count as Overrides. -/
theorem claim_C2_separator_code_bug :
    ConvertPro.ends_with_px "logo-16px".data = false ∧
    ConvertPro.ends_with_px "logo#16px".data = true ∧
    ConvertPro.ends_with_px "logo#px".data = false ∧
    ConvertPro.base_filenames ["logo-16px.svg", "logo.svg"] [16, 32] =
      ["logo-16px.svg", "logo.svg"] ∧
    ConvertPro.alt_filenames ["logo-16px.svg", "logo.svg"] [16, 32] = [] := by decide

/-- Counterexample for C3: with a single-element size set, `sizes[:-1]` is
empty so a px-tagged svg file is excluded from both lists - the classification
is not a total partition of the svg filenames. -/
theorem claim_C3_counterexample :
    ConvertPro.is_svg "logo#16px.svg" = true ∧
    ¬("logo#16px.svg" ∈ ConvertPro.base_filenames ["logo#16px.svg"] [16] ∨
      "logo#16px.svg" ∈ ConvertPro.alt_filenames ["logo#16px.svg"] [16]) := by decide

/-- C3 as amended: for size sets with at least two elements the classification
is a total partition - every svg filename lands in exactly one of the two
lists - and both lists are sorted lexicographically ascending. (With a
single-element size set a px-tagged file lands in neither list, see the
counterexample.) -/
theorem claim_C3_partition (listing : List String) (sizes : List Nat)
    (h2 : 2 ≤ sizes.length) :
    (∀ f ∈ listing, ConvertPro.is_svg f = true →
      (f ∈ ConvertPro.base_filenames listing sizes ∨
        f ∈ ConvertPro.alt_filenames listing sizes) ∧
      ¬(f ∈ ConvertPro.base_filenames listing sizes ∧
        f ∈ ConvertPro.alt_filenames listing sizes)) ∧
    List.Sorted strLe (ConvertPro.base_filenames listing sizes) ∧
    List.Sorted strLe (ConvertPro.alt_filenames listing sizes) := by
  have hne : sizes ≠ [] := by
    intro h
    rw [h] at h2
    simp at h2
  have hdl : sizes.dropLast ≠ [] := by
    have hl := List.length_dropLast sizes
    intro hnil
    rw [hnil] at hl
    simp at hl
    omega
  refine ⟨?_, sorted_py_sorted _, sorted_py_sorted _⟩
  intro f hf hsvg
  rw [ConvertPro.mem_base_filenames hne, ConvertPro.mem_alt_filenames hdl]
  cases hpx : ConvertPro.ends_with_px (ConvertPro.lowered_stem f) <;> simp [hpx, hf, hsvg]

/-- Witness for C3 at a concrete input: with two sizes, `icon.svg` is
classified into one of the lists and the base list is sorted. -/
theorem claim_C3_partition_witness :
    ("icon.svg" ∈ ConvertPro.base_filenames ["icon.svg", "logo#16px.svg"] [16, 32] ∨
      "icon.svg" ∈ ConvertPro.alt_filenames ["icon.svg", "logo#16px.svg"] [16, 32]) ∧
    List.Sorted strLe (ConvertPro.base_filenames ["icon.svg", "logo#16px.svg"] [16, 32]) :=
  ⟨((claim_C3_partition ["icon.svg", "logo#16px.svg"] [16, 32] (by decide)).1
      "icon.svg" (by decide) (by decide)).1,
    (claim_C3_partition ["icon.svg", "logo#16px.svg"] [16, 32] (by decide)).2.1⟩

/-- Counterexample for C5: with exactly one added and one modified icon the
synthesized message is `feat: add 1, update 1 icons` - the code appends
` icons` after the comma-joined clauses, so the claim's expected string
`feat: add 1, update 1` is not produced. -/
theorem claim_C5_counterexample :
    ConvertPro.commit_message ["A  a.svg", "M  b.svg"] "2026-02-03" =
      "feat: add 1, update 1 icons" ∧
    ConvertPro.commit_message ["A  a.svg", "M  b.svg"] "2026-02-03" ≠
      "feat: add 1, update 1" := by decide

/-- C5 as amended: whenever icon changes are present and neither single-add
nor single-update applies, the message is `feat: ` followed by the
comma-joined clauses `add <n>`, `update <n>`, `remove <n>` in that fixed
order, each included only when its count is non-zero, followed by ` icons`. -/
theorem claim_C5_amended (status_lines : List String) (today : String)
    (h0 : (!(ConvertPro.added_icons status_lines).isEmpty
        || !(ConvertPro.modified_icons status_lines).isEmpty
        || !(ConvertPro.deleted_icons status_lines).isEmpty) = true)
    (h1 : ((ConvertPro.added_icons status_lines).length == 1
        && (ConvertPro.modified_icons status_lines).isEmpty
        && (ConvertPro.deleted_icons status_lines).isEmpty) = false)
    (h2 : ((ConvertPro.modified_icons status_lines).length == 1
        && (ConvertPro.added_icons status_lines).isEmpty
        && (ConvertPro.deleted_icons status_lines).isEmpty) = false) :
    ConvertPro.commit_message status_lines today =
      "feat: " ++ py_join ", "
        ((if !(ConvertPro.added_icons status_lines).isEmpty
            then ["add " ++ toString (ConvertPro.added_icons status_lines).length] else []) ++
         (if !(ConvertPro.modified_icons status_lines).isEmpty
            then ["update " ++ toString (ConvertPro.modified_icons status_lines).length]
            else []) ++
         (if !(ConvertPro.deleted_icons status_lines).isEmpty
            then ["remove " ++ toString (ConvertPro.deleted_icons status_lines).length]
            else []))
        ++ " icons" := by
  unfold ConvertPro.commit_message
  simp only [h0, h1, h2, if_true, Bool.false_eq_true, if_false]

/-- Witness for C5 at the concrete input of the claim's example. -/
theorem claim_C5_witness :
    ConvertPro.commit_message ["A  a.svg", "M  b.svg"] "2026-02-03" =
      "feat: add 1, update 1 icons" :=
  (claim_C5_amended ["A  a.svg", "M  b.svg"] "2026-02-03"
    (by decide) (by decide) (by decide)).trans (by decide)

theorem filterMap_if_map {β : Type} (p : Nat → Bool) (f : Nat → Cand) (g : Cand → β) :
    ∀ sizes : List Nat,
      ((sizes.filterMap fun s => if p s then some (f s) else none).map g)
        = (sizes.filter p).map (fun s => g (f s)) := by
  intro sizes
  induction sizes with
  | nil => rfl
  | cons a t ih =>
    by_cases h : p a = true <;> simp [List.filterMap_cons, List.filter_cons, h, ih]

/-- Counterexample for C8: an override file whose size tag (24) is not among
the requested sizes (16, 32) does not participate in the candidate assignment
at all - it never appears in the built candidate list, and the whole size set
is assigned to the base file. -/
theorem claim_C8_counterexample :
    (24 ∉ ([16, 32] : List Nat)) ∧
    join_path "d" "logo-24px.svg" ∉
      (ConvertPro.build_inputs "d" "logo.svg" ["logo-24px.svg"] [16, 32] 32).map Cand.path ∧
    ConvertPro.resolve "d" "logo.svg" ["logo-24px.svg"] [16, 32] =
      .ok [(⟨"d/logo.svg", 32⟩, 16), (⟨"d/logo.svg", 32⟩, 32)] :=
  ⟨by decide, by decide, by rfl⟩

/-- C8 as amended: the candidate list consists exactly of the overrides whose
name is the base stem + '-' + size + 'px' + extension for the requested sizes
that have such an override, in ascending size order, followed by the base
file; every candidate bound is a requested size or the base's bound. An
override whose size tag is not among the requested sizes therefore never
participates in the assignment. -/
theorem claim_C8_candidates (dir base : String) (alts : List String) (sizes : List Nat)
    (L : Nat) :
    (ConvertPro.build_inputs dir base alts sizes L).map Cand.path =
      (sizes.filter fun s => alts.contains (ConvertPro.assumed_name base s)).map
        (fun s => join_path dir (ConvertPro.assumed_name base s)) ++ [join_path dir base] ∧
    ∀ c ∈ ConvertPro.build_inputs dir base alts sizes L,
      c.maximum_size ∈ sizes ∨ c.maximum_size = L := by
  constructor
  · unfold ConvertPro.build_inputs
    rw [List.map_append]
    rw [filterMap_if_map (fun s => alts.contains (ConvertPro.assumed_name base s))
      (fun s => ⟨join_path dir (ConvertPro.assumed_name base s), s⟩) Cand.path sizes]
    rfl
  · intro c hc
    unfold ConvertPro.build_inputs at hc
    rcases List.mem_append.mp hc with hc | hc
    · obtain ⟨a, ha, hfa⟩ := List.mem_filterMap.mp hc
      left
      by_cases h : alts.contains (ConvertPro.assumed_name base a) = true
      · rw [if_pos h] at hfa
        obtain rfl := Option.some.inj hfa
        exact ha
      · rw [if_neg h] at hfa
        cases hfa
    · right
      simp at hc
      rw [hc]

theorem walkAux_eq : ConvertPro.walkAux = ConvertIco.walkAux := by
  funext cur rest ss
  induction ss generalizing cur rest with
  | nil => rfl
  | cons s ss ih =>
    by_cases h : s ≤ cur.maximum_size
    · simp [ConvertPro.walkAux, ConvertIco.walkAux, h, ih]
    · cases rest with
      | nil => simp [ConvertPro.walkAux, ConvertIco.walkAux, h]
      | cons c cs => simp [ConvertPro.walkAux, ConvertIco.walkAux, h, ih]

theorem runWalk_eq : ConvertPro.runWalk = ConvertIco.runWalk := by
  funext inputs sizes
  cases inputs with
  | nil => rfl
  | cons c cs => simp [ConvertPro.runWalk, ConvertIco.runWalk, walkAux_eq]

theorem resolve_eq : ConvertPro.resolve = ConvertIco.resolve := by
  funext dir base alts sizes
  unfold ConvertPro.resolve ConvertIco.resolve
  rw [runWalk_eq, show ConvertPro.build_inputs = ConvertIco.build_inputs from rfl]

/-- C10: the core decision logic of the two source files is extensionally
equal - on identical inputs the two embeddings compute identical
classification of base and override filenames, identical per-size source
assignments, identical incremental filtering results, and identical
synthesized commit messages. -/
theorem claim_C10_cores_equal :
    ConvertPro.ends_with_px = ConvertIco.ends_with_px ∧
    ConvertPro.base_filenames = ConvertIco.base_filenames ∧
    ConvertPro.alt_filenames = ConvertIco.alt_filenames ∧
    ConvertPro.build_inputs = ConvertIco.build_inputs ∧
    ConvertPro.resolve = ConvertIco.resolve ∧
    ConvertPro.filter_changed = ConvertIco.filter_changed ∧
    ConvertPro.incremental_filter = ConvertIco.incremental_filter ∧
    ConvertPro.commit_message = ConvertIco.commit_message :=
  ⟨rfl, rfl, rfl, rfl, resolve_eq, rfl, rfl, rfl⟩
